import Mathlib

/-!
Verification of the HoP (Historical Object Prediction) temporal-reconstruction and
object-decoder subsystem.

The development shallowly embeds the two source modules:

* `hop.py` — the `HoP.forward` sequence selection: reversing the BEV history,
  extracting the adjacent pair at reversed indices `k-1` and `k+1`, popping the
  target frame at reversed index `k`, and adding per-offset temporal positional
  embeddings to the remaining frames.
* `object_decoder.py` — the `ObjectDecoder` head: query-embedding split, initial
  reference-point projection, the per-layer refinement loop (inverse-sigmoid,
  regression offsets, sigmoid, point-cloud-range denormalization) and the output
  dictionary.

Tensors are modelled as nested lists of rationals; real-valued primitives whose
bodies live outside this repository (`torch.sigmoid`, the mmdet `inverse_sigmoid`,
the reciprocal square root inside `nn.LayerNorm`) are taken as function
parameters, constrained only where a claim needs their analytic range.
-/

namespace HoPModel

/-- A BEV feature map with shape (batch, bev_h*bev_w, embed_dims), as a nested list:
batch index, then flattened spatial index, then channel index. -/
abbrev Frame := List (List (List ℚ))

/-- The selection portion of `HoP.forward` (hop.py lines 52-58), for a configured
target index `k` in the valid range `1 ≤ k ≤ N-2`: reverse the history, read the
adjacent frames at reversed indices `k-1` and `k+1`, pop the frame at reversed
index `k`; the remaining list is the remote set.  Returns `none` when an index
is out of range (Python would raise). -/
def hopSelect {α : Type} (k : Nat) (bev_history : List α) : Option (α × α × List α) :=
  match (bev_history.reverse)[k-1]?, (bev_history.reverse)[k+1]? with
  | some a1, some a2 => some (a1, a2, bev_history.reverse.eraseIdx k)
  | _, _ => none

/-- Models `self.temp_embedding.weight.unsqueeze(1).repeat(1, bev_h*bev_w, 1)`
(hop.py lines 61-64): each row of the temporal embedding table is replicated
across all `hw = bev_h*bev_w` spatial positions. -/
def temporal_pos_embeds (weight : List (List ℚ)) (hw : Nat) : List (List (List ℚ)) :=
  weight.map (fun row => List.replicate hw row)

/-- Models `bev_features + temporal_pos_embeds[t, :, :]`: elementwise addition of a
(hw, embed_dims) embedding slab to every batch slice of a frame. -/
def frameAdd (f : Frame) (e : List (List ℚ)) : Frame :=
  f.map (fun batchSlice =>
    List.zipWith (fun cell ecell => List.zipWith (· + ·) cell ecell) batchSlice e)

/-- The loop `for t, bev_features in enumerate(B_rem): B_rem[t] = bev_features +
temporal_pos_embeds[t, :, :]` (hop.py lines 65-66): slot `t` of the remote list is
rebound to the sum of the original frame and embedding row `t`. -/
def embedRemote (weight : List (List ℚ)) (hw : Nat) (B_rem : List Frame) : List Frame :=
  List.zipWith frameAdd B_rem (temporal_pos_embeds weight hw)

/-- The full selection-plus-embedding prefix of `HoP.forward` (hop.py lines 52-66):
returns the adjacent pair `B_adj` and the final value of the remote list `B_rem`.
Since `B_rem` is the very list object the caller passed in (`B_rem = bev_history`
after in-place reversal and pop), the second component is also the list of the caller
after the call returns. -/
def hopSelectEmbed (k : Nat) (weight : List (List ℚ)) (hw : Nat)
    (bev_history : List Frame) : Option ((Frame × Frame) × List Frame) :=
  match hopSelect k bev_history with
  | some (a1, a2, rem) => some ((a1, a2), embedRemote weight hw rem)
  | none => none

theorem hopSelect_eq_some {α : Type} {k : Nat} {hist : List α}
    (h1 : k - 1 < hist.reverse.length) (h2 : k + 1 < hist.reverse.length) :
    hopSelect k hist =
      some (hist.reverse[k-1], hist.reverse[k+1], hist.reverse.eraseIdx k) := by
  unfold hopSelect
  rw [List.getElem?_eq_getElem h1, List.getElem?_eq_getElem h2]

theorem mem_eraseIdx_of_ne {α : Type} {l : List α} {i k : Nat}
    (hi : i < l.length) (hne : i ≠ k) : l[i] ∈ l.eraseIdx k :=
  List.mem_eraseIdx_iff_getElem.mpr ⟨i, hi, hne, rfl⟩

theorem not_mem_eraseIdx_self {α : Type} {l : List α} {k : Nat}
    (hnd : l.Nodup) (hk : k < l.length) : l[k] ∉ l.eraseIdx k := by
  intro hmem
  obtain ⟨i, hi, hik, heq⟩ := List.mem_eraseIdx_iff_getElem.mp hmem
  exact hik ((hnd.getElem_inj_iff).mp heq)

/-- C2: the claim says the remote list has exactly N-2 frames and excludes the
two adjacent frames.  On the code it fails: only the target frame is popped, so
the remote list has N-1 frames and still contains both adjacent frames.
Concretely, with history `[10, 20, 30, 40]` (N = 4) and k = 1, the reversed list
is `[40, 30, 20, 10]`, the adjacent pair is `(40, 20)`, and the remote list is
`[40, 20, 10]`: its length is 3 ≠ N-2 = 2 and it contains both 40 and 20. -/
theorem C2_counterexample :
    hopSelect 1 ([10, 20, 30, 40] : List ℕ) = some (40, 20, [40, 20, 10]) ∧
    ¬ (([40, 20, 10] : List ℕ).length = 2 ∧ (40 : ℕ) ∉ ([40, 20, 10] : List ℕ) ∧
       (20 : ℕ) ∉ ([40, 20, 10] : List ℕ)) := by
  decide

/-- C2 (amended): for every valid target index `1 ≤ k ≤ N-2` the Sequence
Selector partitions the history into the adjacent pair at reversed indices `k-1`
and `k+1` and a remote list that consists of ALL `N-1` non-target frames — it
contains both adjacent frames (the split is not disjoint), and, for a
duplicate-free history, never the target frame. -/
theorem C2_remote_is_all_nontarget {α : Type} (k : Nat) (hist : List α)
    (hk : 1 ≤ k) (hkN : k + 2 ≤ hist.length) :
    ∃ a1 a2 rem, hopSelect k hist = some (a1, a2, rem) ∧
      rem.length = hist.length - 1 ∧ a1 ∈ rem ∧ a2 ∈ rem ∧
      (hist.Nodup → ∀ tgt, hist.reverse[k]? = some tgt → tgt ∉ rem) := by
  have hlen : hist.reverse.length = hist.length := List.length_reverse hist
  have h1 : k - 1 < hist.reverse.length := by omega
  have h2 : k + 1 < hist.reverse.length := by omega
  have hk' : k < hist.reverse.length := by omega
  refine ⟨_, _, _, hopSelect_eq_some h1 h2, ?_, ?_, ?_, ?_⟩
  · rw [List.length_eraseIdx, hlen, if_pos (show k < hist.length by omega)]
  · exact mem_eraseIdx_of_ne h1 (by omega)
  · exact mem_eraseIdx_of_ne h2 (by omega)
  · intro hnd tgt htgt hmem
    have htgt' : hist.reverse[k] = tgt := by
      have := List.getElem?_eq_getElem hk'
      rw [this] at htgt
      exact Option.some.inj htgt
    subst htgt'
    exact not_mem_eraseIdx_self (List.nodup_reverse.mpr hnd) hk' hmem

/-- C2 witness: the amended statement instantiated at history `[10,20,30,40]`,
k = 1. -/
theorem C2_remote_is_all_nontarget_witness :
    ∃ a1 a2 rem, hopSelect 1 ([10, 20, 30, 40] : List ℕ) = some (a1, a2, rem) ∧
      rem.length = ([10, 20, 30, 40] : List ℕ).length - 1 ∧ a1 ∈ rem ∧ a2 ∈ rem ∧
      (([10, 20, 30, 40] : List ℕ).Nodup → ∀ tgt,
        ([10, 20, 30, 40] : List ℕ).reverse[1]? = some tgt → tgt ∉ rem) :=
  C2_remote_is_all_nontarget 1 [10, 20, 30, 40] (by decide) (by decide)

/-- C3: for a duplicate-free history of length N ≥ 3 and a valid target index
`1 ≤ k ≤ N-2`, the withheld frame at reversed index `k` is distinct from both
adjacent frames and absent from the remote list, so it never enters the
temporal reconstruction path. -/
theorem C3_no_target_leakage {α : Type} (k : Nat) (hist : List α)
    (hk : 1 ≤ k) (hkN : k + 2 ≤ hist.length) (hnd : hist.Nodup) :
    ∃ a1 a2 rem tgt, hopSelect k hist = some (a1, a2, rem) ∧
      hist.reverse[k]? = some tgt ∧ tgt ≠ a1 ∧ tgt ≠ a2 ∧ tgt ∉ rem := by
  have hlen : hist.reverse.length = hist.length := List.length_reverse hist
  have h1 : k - 1 < hist.reverse.length := by omega
  have h2 : k + 1 < hist.reverse.length := by omega
  have hk' : k < hist.reverse.length := by omega
  have hndr : hist.reverse.Nodup := List.nodup_reverse.mpr hnd
  refine ⟨_, _, _, hist.reverse[k], hopSelect_eq_some h1 h2,
    List.getElem?_eq_getElem hk', ?_, ?_, not_mem_eraseIdx_self hndr hk'⟩
  · intro heq
    have := (hndr.getElem_inj_iff).mp heq
    omega
  · intro heq
    have := (hndr.getElem_inj_iff).mp heq
    omega

/-- C3 witness: instantiated at history `[10,20,30,40,50]`, k = 2. -/
theorem C3_no_target_leakage_witness :
    ∃ a1 a2 rem tgt, hopSelect 2 ([10, 20, 30, 40, 50] : List ℕ) = some (a1, a2, rem) ∧
      ([10, 20, 30, 40, 50] : List ℕ).reverse[2]? = some tgt ∧
      tgt ≠ a1 ∧ tgt ≠ a2 ∧ tgt ∉ rem :=
  C3_no_target_leakage 2 [10, 20, 30, 40, 50] (by decide) (by decide) (by decide)

/-- C4: for every valid `k` in `[1, N-2]`, the adjacent pair consists of exactly
the frames at reversed indices `k-1` and `k+1`, in that order. -/
theorem C4_adjacent_pair {α : Type} (k : Nat) (hist : List α)
    (hk : 1 ≤ k) (hkN : k + 2 ≤ hist.length) :
    ∃ a1 a2 rem, hopSelect k hist = some (a1, a2, rem) ∧
      hist.reverse[k-1]? = some a1 ∧ hist.reverse[k+1]? = some a2 := by
  have hlen : hist.reverse.length = hist.length := List.length_reverse hist
  have h1 : k - 1 < hist.reverse.length := by omega
  have h2 : k + 1 < hist.reverse.length := by omega
  exact ⟨_, _, _, hopSelect_eq_some h1 h2,
    List.getElem?_eq_getElem h1, List.getElem?_eq_getElem h2⟩

/-- C4 witness: instantiated at history `[10,20,30,40,50]`, k = 3. -/
theorem C4_adjacent_pair_witness :
    ∃ a1 a2 rem, hopSelect 3 ([10, 20, 30, 40, 50] : List ℕ) = some (a1, a2, rem) ∧
      ([10, 20, 30, 40, 50] : List ℕ).reverse[2]? = some a1 ∧
      ([10, 20, 30, 40, 50] : List ℕ).reverse[4]? = some a2 :=
  C4_adjacent_pair 3 [10, 20, 30, 40, 50] (by decide) (by decide)

/-! Helper access lemmas for `getD` through `map`, `zipWith` and `replicate`. -/

theorem getD_map_of_lt {α β : Type} (f : α → β) (l : List α) (i : Nat)
    (h : i < l.length) (d : β) (d' : α) : (l.map f).getD i d = f (l.getD i d') := by
  rw [List.getD_eq_getElem?_getD, List.getD_eq_getElem?_getD, List.getElem?_map,
    List.getElem?_eq_getElem h]
  rfl

theorem getD_zipWith_of_lt {α β γ : Type} (f : α → β → γ) (l1 : List α) (l2 : List β)
    (i : Nat) (h1 : i < l1.length) (h2 : i < l2.length) (d : γ) (d1 : α) (d2 : β) :
    (List.zipWith f l1 l2).getD i d = f (l1.getD i d1) (l2.getD i d2) := by
  have h : i < (List.zipWith f l1 l2).length := by
    rw [List.length_zipWith]
    exact lt_min h1 h2
  rw [List.getD_eq_getElem?_getD, List.getElem?_eq_getElem h, List.getElem_zipWith,
    List.getD_eq_getElem?_getD, List.getElem?_eq_getElem h1,
    List.getD_eq_getElem?_getD, List.getElem?_eq_getElem h2]
  rfl

theorem getD_replicate_of_lt {α : Type} (a : α) (n i : Nat) (h : i < n) (d : α) :
    (List.replicate n a).getD i d = a := by
  rw [List.getD_eq_getElem?_getD, List.getElem?_replicate, if_pos h]
  rfl

/-- Channel access into a 4-level nested list (list index, batch, spatial, channel). -/
def get4 (t : List (List (List (List ℚ)))) (i j s c : Nat) : ℚ :=
  (((t.getD i []).getD j []).getD s []).getD c 0

theorem temporal_pos_embeds_getD (weight : List (List ℚ)) (hw t s : Nat)
    (ht : t < weight.length) (hs : s < hw) :
    ((temporal_pos_embeds weight hw).getD t []).getD s [] = weight.getD t [] := by
  unfold temporal_pos_embeds
  rw [getD_map_of_lt _ _ _ ht [] []]
  exact getD_replicate_of_lt _ _ _ hs []

/-- C5: the temporal positional offset applied to remote frame `t` is row `t` of
the embedding table at every spatial position (the slab built by
`unsqueeze(1).repeat(1, hw, 1)` is spatially constant), the value added at every
(batch, spatial, channel) coordinate of frame `t` is `weight[t][d]`, and for
table rows that differ, the offsets applied at distinct time positions differ. -/
theorem C5_temporal_embedding_broadcast (weight : List (List ℚ)) (hw : Nat)
    (B_rem : List Frame) (t b s : Nat)
    (ht : t < B_rem.length) (htw : t < weight.length)
    (hb : b < (B_rem.getD t []).length)
    (hs : s < hw) (hs2 : s < ((B_rem.getD t []).getD b []).length) :
    ((temporal_pos_embeds weight hw).getD t []).getD s [] = weight.getD t [] ∧
    (∀ d, d < (((B_rem.getD t []).getD b []).getD s []).length →
      d < (weight.getD t []).length →
      get4 (embedRemote weight hw B_rem) t b s d
        = get4 B_rem t b s d + (weight.getD t []).getD d 0) ∧
    (∀ t' s', t' < weight.length → s' < hw →
      weight.getD t [] ≠ weight.getD t' [] →
      ((temporal_pos_embeds weight hw).getD t []).getD s []
        ≠ ((temporal_pos_embeds weight hw).getD t' []).getD s' []) := by
  have hslab : (temporal_pos_embeds weight hw).length = weight.length := by
    unfold temporal_pos_embeds
    exact List.length_map _ _
  refine ⟨temporal_pos_embeds_getD weight hw t s htw hs, ?_, ?_⟩
  · intro d hd hdw
    have e1 : (embedRemote weight hw B_rem).getD t []
        = frameAdd (B_rem.getD t []) ((temporal_pos_embeds weight hw).getD t []) := by
      unfold embedRemote
      exact getD_zipWith_of_lt _ _ _ t ht (by rw [hslab]; exact htw) [] [] []
    have e2 : (temporal_pos_embeds weight hw).getD t []
        = List.replicate hw (weight.getD t []) := by
      unfold temporal_pos_embeds
      exact getD_map_of_lt _ _ _ htw [] []
    have e3 : (frameAdd (B_rem.getD t []) (List.replicate hw (weight.getD t []))).getD b []
        = List.zipWith (fun cell ecell => List.zipWith (· + ·) cell ecell)
            ((B_rem.getD t []).getD b []) (List.replicate hw (weight.getD t [])) := by
      unfold frameAdd
      exact getD_map_of_lt _ _ _ hb [] []
    have e4 : (List.zipWith (fun cell ecell => List.zipWith (· + ·) cell ecell)
          ((B_rem.getD t []).getD b []) (List.replicate hw (weight.getD t []))).getD s []
        = List.zipWith (· + ·) (((B_rem.getD t []).getD b []).getD s []) (weight.getD t []) := by
      rw [getD_zipWith_of_lt _ _ _ s hs2 (by simpa using hs) [] [] [],
        getD_replicate_of_lt _ _ _ hs []]
    have e5 : (List.zipWith (· + ·) (((B_rem.getD t []).getD b []).getD s [])
          (weight.getD t [])).getD d 0
        = (((B_rem.getD t []).getD b []).getD s []).getD d 0 + (weight.getD t []).getD d 0 :=
      getD_zipWith_of_lt _ _ _ d hd hdw 0 0 0
    unfold get4
    rw [e1, e2, e3, e4, e5]
  · intro t' s' ht' hs' hne
    rw [temporal_pos_embeds_getD weight hw t s htw hs,
      temporal_pos_embeds_getD weight hw t' s' ht' hs']
    exact hne

/-- C5 witness: table `[[1,2],[3,4]]`, hw = 2, two remote frames of shape 1×2×2,
instantiated at t = 0, b = 0, s = 1. -/
theorem C5_temporal_embedding_broadcast_witness :
    ((temporal_pos_embeds [[1,2],[3,4]] 2).getD 0 []).getD 1 []
        = ([[1,2],[3,4]] : List (List ℚ)).getD 0 [] ∧
    (∀ d, d < (((([[[[10,20],[30,40]]], [[[50,60],[70,80]]]] : List Frame).getD 0 []).getD 0
          []).getD 1 []).length →
      d < (([[1,2],[3,4]] : List (List ℚ)).getD 0 []).length →
      get4 (embedRemote [[1,2],[3,4]] 2 [[[[10,20],[30,40]]], [[[50,60],[70,80]]]]) 0 0 1 d
        = get4 ([[[[10,20],[30,40]]], [[[50,60],[70,80]]]] : List Frame) 0 0 1 d
          + (([[1,2],[3,4]] : List (List ℚ)).getD 0 []).getD d 0) ∧
    (∀ t' s', t' < ([[1,2],[3,4]] : List (List ℚ)).length → s' < 2 →
      ([[1,2],[3,4]] : List (List ℚ)).getD 0 [] ≠ ([[1,2],[3,4]] : List (List ℚ)).getD t' [] →
      ((temporal_pos_embeds [[1,2],[3,4]] 2).getD 0 []).getD 1 []
        ≠ ((temporal_pos_embeds [[1,2],[3,4]] 2).getD t' []).getD s' []) :=
  C5_temporal_embedding_broadcast [[1,2],[3,4]] 2 [[[[10,20],[30,40]]], [[[50,60],[70,80]]]]
    0 0 1 (by decide) (by decide) (by decide) (by decide) (by decide)

/-- C8: the claim says that after `HoP.forward` the history list of the caller is the
reversed original with the element at reversed index `k` removed.  On the code
this fails: the embedding loop writes `B_rem[t] = bev_features +
temporal_pos_embeds[t]` through `B_rem`, which is the same list object, so the
list of the caller ends up holding the embedded sums.  Concretely, with four 1×1×1
frames `0,1,2,3`, k = 1, hw = 1 and table rows `100, 200, 300`, the final list
is `[[[[103]]], [[[201]]], [[[300]]]]`, not `reverse` minus index 1. -/
theorem C8_counterexample :
    (hopSelectEmbed 1 [[100],[200],[300]] 1
        ([[[[0]]], [[[1]]], [[[2]]], [[[3]]]] : List Frame)).map Prod.fst
      = some ([[[3]]], [[[1]]]) ∧
    (hopSelectEmbed 1 [[100],[200],[300]] 1
        ([[[[0]]], [[[1]]], [[[2]]], [[[3]]]] : List Frame)).map Prod.snd
      = some [[[[103]]], [[[201]]], [[[300]]]] ∧
    ([[[[103]]], [[[201]]], [[[300]]]] : List Frame)
      ≠ ([[[[0]]], [[[1]]], [[[2]]], [[[3]]]] : List Frame).reverse.eraseIdx 1 := by
  refine ⟨by decide, ?_, by decide⟩
  simp only [hopSelectEmbed, hopSelect, embedRemote, temporal_pos_embeds, frameAdd]
  norm_num [frameAdd]

/-- C8 (amended): `HoP.forward` destructively consumes the history list of the
caller: after the call it holds the N-1 non-target frames in most-recent-first
order with the temporal positional embeddings already added to every element
(the loop writes through the `B_rem` alias), i.e. it equals the embedded remote
list, not merely the reversed-and-popped original; it must not be reused. -/
theorem C8_history_consumed (k hw : Nat) (weight : List (List ℚ)) (hist : List Frame)
    (hk : 1 ≤ k) (hkN : k + 2 ≤ hist.length) (hwlen : weight.length = hist.length - 1) :
    ∃ adj rem, hopSelectEmbed k weight hw hist = some (adj, rem) ∧
      rem = embedRemote weight hw (hist.reverse.eraseIdx k) ∧
      rem.length = hist.length - 1 := by
  have hlen : hist.reverse.length = hist.length := List.length_reverse hist
  have h1 : k - 1 < hist.reverse.length := by omega
  have h2 : k + 1 < hist.reverse.length := by omega
  have hsel := hopSelect_eq_some h1 h2
  refine ⟨(hist.reverse[k-1], hist.reverse[k+1]),
    embedRemote weight hw (hist.reverse.eraseIdx k), ?_, rfl, ?_⟩
  · unfold hopSelectEmbed
    rw [hsel]
  · unfold embedRemote
    rw [List.length_zipWith]
    have hL1 : (hist.reverse.eraseIdx k).length = hist.length - 1 := by
      rw [List.length_eraseIdx, if_pos (show k < hist.reverse.length by omega), hlen]
    have hL2 : (temporal_pos_embeds weight hw).length = weight.length := by
      unfold temporal_pos_embeds
      exact List.length_map _ _
    rw [hL1, hL2, hwlen]
    exact min_self _

/-- C8 witness (for the amended statement): four 1×1×1 frames, k = 1, hw = 1. -/
theorem C8_history_consumed_witness :
    ∃ adj rem, hopSelectEmbed 1 [[100],[200],[300]] 1
        ([[[[0]]], [[[1]]], [[[2]]], [[[3]]]] : List Frame) = some (adj, rem) ∧
      rem = embedRemote [[100],[200],[300]] 1
        (([[[[0]]], [[[1]]], [[[2]]], [[[3]]]] : List Frame).reverse.eraseIdx 1) ∧
      rem.length = ([[[[0]]], [[[1]]], [[[2]]], [[[3]]]] : List Frame).length - 1 :=
  C8_history_consumed 1 1 [[100],[200],[300]] [[[[0]]], [[[1]]], [[[2]]], [[[3]]]]
    (by decide) (by decide) (by decide)

/-- C10: the adjacent pair is read out of the reversed list before the embedding
loop runs, and the loop rebinds remote slots to fresh sums; hence the adjacent
frames handed on are the original, un-embedded feature maps at reversed indices
k-1 and k+1, while the same two frames appear in the remote list (at remote
indices k-1 and k) with their temporal embeddings added. -/
theorem C10_adjacent_unembedded (k hw : Nat) (weight : List (List ℚ)) (hist : List Frame)
    (hk : 1 ≤ k) (hkN : k + 2 ≤ hist.length) (hwlen : weight.length = hist.length - 1) :
    ∃ a1 a2 rem e1 e2, hopSelectEmbed k weight hw hist = some ((a1, a2), rem) ∧
      hist.reverse[k-1]? = some a1 ∧ hist.reverse[k+1]? = some a2 ∧
      (temporal_pos_embeds weight hw)[k-1]? = some e1 ∧
      (temporal_pos_embeds weight hw)[k]? = some e2 ∧
      rem[k-1]? = some (frameAdd a1 e1) ∧
      rem[k]? = some (frameAdd a2 e2) := by
  have hlen : hist.reverse.length = hist.length := List.length_reverse hist
  have h1 : k - 1 < hist.reverse.length := by omega
  have h2 : k + 1 < hist.reverse.length := by omega
  have hsel := hopSelect_eq_some h1 h2
  have hslab : (temporal_pos_embeds weight hw).length = weight.length := by
    unfold temporal_pos_embeds
    exact List.length_map _ _
  have hek1 : k - 1 < (temporal_pos_embeds weight hw).length := by omega
  have hek2 : k < (temporal_pos_embeds weight hw).length := by omega
  have her : (hist.reverse.eraseIdx k).length = hist.length - 1 := by
    rw [List.length_eraseIdx, if_pos (show k < hist.reverse.length by omega), hlen]
  have hrem1 : k - 1 < (embedRemote weight hw (hist.reverse.eraseIdx k)).length := by
    unfold embedRemote
    rw [List.length_zipWith, her, hslab, hwlen, min_self]
    omega
  have hrem2 : k < (embedRemote weight hw (hist.reverse.eraseIdx k)).length := by
    unfold embedRemote
    rw [List.length_zipWith, her, hslab, hwlen, min_self]
    omega
  refine ⟨hist.reverse[k-1], hist.reverse[k+1], embedRemote weight hw (hist.reverse.eraseIdx k),
    (temporal_pos_embeds weight hw)[k-1], (temporal_pos_embeds weight hw)[k],
    ?_, List.getElem?_eq_getElem h1, List.getElem?_eq_getElem h2,
    List.getElem?_eq_getElem hek1, List.getElem?_eq_getElem hek2, ?_, ?_⟩
  · unfold hopSelectEmbed
    rw [hsel]
  · rw [List.getElem?_eq_getElem hrem1]
    unfold embedRemote
    rw [List.getElem_zipWith, List.getElem_eraseIdx, dif_pos (show k - 1 < k by omega)]
  · rw [List.getElem?_eq_getElem hrem2]
    unfold embedRemote
    rw [List.getElem_zipWith, List.getElem_eraseIdx, dif_neg (lt_irrefl k)]

/-- C10 witness: four 1×1×1 frames, k = 1, hw = 1. -/
theorem C10_adjacent_unembedded_witness :
    ∃ a1 a2 rem e1 e2, hopSelectEmbed 1 [[100],[200],[300]] 1
        ([[[[0]]], [[[1]]], [[[2]]], [[[3]]]] : List Frame) = some ((a1, a2), rem) ∧
      ([[[[0]]], [[[1]]], [[[2]]], [[[3]]]] : List Frame).reverse[0]? = some a1 ∧
      ([[[[0]]], [[[1]]], [[[2]]], [[[3]]]] : List Frame).reverse[2]? = some a2 ∧
      (temporal_pos_embeds [[100],[200],[300]] 1)[0]? = some e1 ∧
      (temporal_pos_embeds [[100],[200],[300]] 1)[1]? = some e2 ∧
      rem[0]? = some (frameAdd a1 e1) ∧
      rem[1]? = some (frameAdd a2 e2) :=
  C10_adjacent_unembedded 1 1 [[100],[200],[300]] [[[[0]]], [[[1]]], [[[2]]], [[[3]]]]
    (by decide) (by decide) (by decide)

/-! ### Object Decoder (object_decoder.py)

Learned parameters are explicit structures; the external
`DetectionTransformerDecoder` outputs of the engine (`inter_states`,
`inter_references`) are inputs to the forward function, constrained by the
engine contract where a claim needs it. -/

/-- Hard-coded in `ObjectDecoder.__init__`: `self.code_size = 10`. -/
abbrev code_size : Nat := 10

/-- The decoder config hard-codes `num_layers=6`; `num_pred = self.decoder.num_layers`. -/
abbrev num_layers : Nat := 6

/-- Hard-coded `self.pc_range = [-51.2, -51.2, -5.0, 51.2, 51.2, 3.0]`. -/
def pc_range : List ℚ := [-51.2, -51.2, -5.0, 51.2, 51.2, 3.0]

/-- Parameters of one `Linear` layer: weight rows and bias. -/
structure LinearP where
  W : List (List ℚ)
  b : List ℚ

instance : Inhabited LinearP := ⟨⟨[], []⟩⟩

def dot (r x : List ℚ) : ℚ := (List.zipWith (· * ·) r x).sum

/-- Computes `y = W·x + b`, one output channel per weight row. -/
def linApply (p : LinearP) (x : List ℚ) : List ℚ :=
  List.zipWith (fun row bi => dot row x + bi) p.W p.b

abbrev LinearP.wf (p : LinearP) (inF outF : Nat) : Prop :=
  p.W.length = outF ∧ (∀ r ∈ p.W, r.length = inF) ∧ p.b.length = outF

def relu (x : List ℚ) : List ℚ := x.map (fun v => max v 0)

/-- Parameters of one `nn.LayerNorm(embed_dims)`. -/
structure LayerNormP where
  w : List ℚ
  b : List ℚ

instance : Inhabited LayerNormP := ⟨⟨[], []⟩⟩

abbrev LayerNormP.wf (p : LayerNormP) (d : Nat) : Prop := p.w.length = d ∧ p.b.length = d

/-- Models `nn.LayerNorm` with learned affine parameters and eps = 1e-5; the reciprocal
square root of (variance + eps) is not rational, so it is a function parameter. -/
def layerNormApply (rsqrt : ℚ → ℚ) (p : LayerNormP) (x : List ℚ) : List ℚ :=
  let n : ℚ := (x.length : ℚ)
  let mean := x.sum / n
  let varv := (x.map (fun xi => (xi - mean) * (xi - mean))).sum / n
  let inv := rsqrt (varv + 1/100000)
  List.zipWith (fun wb xi => wb.1 * ((xi - mean) * inv) + wb.2) (p.w.zip p.b) x

/-- One classification branch: `num_reg_fcs = 2` blocks of Linear → LayerNorm →
ReLU, then `Linear(embed_dims, cls_out_channels)`. -/
structure ClsBranchP where
  l1 : LinearP
  n1 : LayerNormP
  l2 : LinearP
  n2 : LayerNormP
  lout : LinearP

instance : Inhabited ClsBranchP := ⟨⟨default, default, default, default, default⟩⟩

abbrev ClsBranchP.wf (p : ClsBranchP) (d c : Nat) : Prop :=
  p.l1.wf d d ∧ p.n1.wf d ∧ p.l2.wf d d ∧ p.n2.wf d ∧ p.lout.wf d c

def clsApply (rsqrt : ℚ → ℚ) (p : ClsBranchP) (x : List ℚ) : List ℚ :=
  linApply p.lout (relu (layerNormApply rsqrt p.n2 (linApply p.l2
    (relu (layerNormApply rsqrt p.n1 (linApply p.l1 x))))))

/-- One regression branch: two Linear → ReLU blocks, then
`Linear(embed_dims, code_size)`. -/
structure RegBranchP where
  l1 : LinearP
  l2 : LinearP
  lout : LinearP

instance : Inhabited RegBranchP := ⟨⟨default, default, default⟩⟩

abbrev RegBranchP.wf (p : RegBranchP) (d : Nat) : Prop :=
  p.l1.wf d d ∧ p.l2.wf d d ∧ p.lout.wf d code_size

def regApply (p : RegBranchP) (x : List ℚ) : List ℚ :=
  linApply p.lout (relu (linApply p.l2 (relu (linApply p.l1 x))))

/-- Construction-time state of `ObjectDecoder`: query embedding table
(num_query × 2·embed_dims), the `Linear(embed_dims, 3)` reference-point
projection, and the `num_layers` cloned classification and regression heads. -/
structure ObjectDecoderP where
  embed_dims : Nat
  num_classes : Nat
  num_query : Nat
  query_embedding : List (List ℚ)
  reference_points : LinearP
  cls_branches : List ClsBranchP
  reg_branches : List RegBranchP

abbrev ObjectDecoderP.wf (P : ObjectDecoderP) : Prop :=
  P.query_embedding.length = P.num_query ∧
  (∀ r ∈ P.query_embedding, r.length = 2 * P.embed_dims) ∧
  P.reference_points.wf P.embed_dims 3 ∧
  P.cls_branches.length = num_layers ∧
  (∀ c ∈ P.cls_branches, c.wf P.embed_dims P.num_classes) ∧
  P.reg_branches.length = num_layers ∧
  (∀ r ∈ P.reg_branches, r.wf P.embed_dims)

/-- Left half of `torch.split(object_query_embeds, embed_dims, dim=1)`: positional half. -/
def query_pos_table (P : ObjectDecoderP) : List (List ℚ) :=
  P.query_embedding.map (fun row => row.take P.embed_dims)

/-- Right half of `torch.split(object_query_embeds, embed_dims, dim=1)`: content half. -/
def query_table (P : ObjectDecoderP) : List (List ℚ) :=
  P.query_embedding.map (fun row => row.drop P.embed_dims)

/-- Models `reference_points = self.reference_points(query_pos).sigmoid()`, expanded to
the batch: shape (bs, num_query, 3). -/
def init_reference (P : ObjectDecoderP) (sig : ℚ → ℚ) (bs : Nat) :
    List (List (List ℚ)) :=
  List.replicate bs
    ((query_pos_table P).map (fun q => (linApply P.reference_points q).map sig))

/-- Outputs of the external `DetectionTransformerDecoder` engine:
`inter_states` in (layer, query, batch, dims) layout (as returned, before
`hs.permute(0, 2, 1, 3)`) and `inter_references` in (layer, batch, query, 3)
layout. -/
structure DecoderOuts where
  inter_states : List (List (List (List ℚ)))
  inter_references : List (List (List (List ℚ)))

/-- Swap the two outer axes of a rectangular nested list (`permute` on the
first two tensor dims). -/
def transpose2 {β : Type} (dflt : β) (t : List (List β)) : List (List β) :=
  match t with
  | [] => []
  | r0 :: _ => (List.range r0.length).map (fun b => t.map (fun row => row.getD b dflt))

/-- The reference point used by refinement layer `lvl` (object_decoder.py lines
120-123): layer 0 uses `init_reference`, layer `lvl > 0` uses
`inter_references[lvl - 1]`. -/
def refUsedAt (P : ObjectDecoderP) (sig : ℚ → ℚ) (dec : DecoderOuts) (bs lvl : Nat) :
    List (List (List ℚ)) :=
  if lvl = 0 then init_reference P sig bs else dec.inter_references.getD (lvl - 1) []

/-- Componentwise `inverse_sigmoid` over one batch slice of reference points. -/
def invSigRef (invSig : ℚ → ℚ) (bb : List (List ℚ)) : List (List ℚ) :=
  bb.map (List.map invSig)

/-- Models `reference = inverse_sigmoid(reference)` (line 124), componentwise. -/
def referenceAt (P : ObjectDecoderP) (sig invSig : ℚ → ℚ) (dec : DecoderOuts)
    (bs lvl : Nat) : List (List (List ℚ)) :=
  (refUsedAt P sig dec bs lvl).map (invSigRef invSig)

/-- The `assert reference.shape[-1] == 3` check (line 129): every per-query
reference vector has exactly 3 components. -/
def assertRef3 (reference : List (List (List ℚ))) : Bool :=
  reference.all (fun b => b.all (fun q => q.length == 3))

/-- Per-query box post-processing (lines 130-139), operating on the raw
regression output `t` (code_size channels) and the inverse-sigmoided reference
`r` (3 components): channels 0,1 get the x,y reference offsets and a sigmoid,
channel 4 gets the z reference offset and a sigmoid, then channels 0,1,4 are
denormalized into `pc_range`; every other channel passes through untouched. -/
def refineQuery (sig : ℚ → ℚ) (r t : List ℚ) : List ℚ :=
  let t1 := t.set 0 (sig (t.getD 0 0 + r.getD 0 0))
  let t2 := t1.set 1 (sig (t1.getD 1 0 + r.getD 1 0))
  let t3 := t2.set 4 (sig (t2.getD 4 0 + r.getD 2 0))
  let t4 := t3.set 0 (t3.getD 0 0 * (pc_range.getD 3 0 - pc_range.getD 0 0) + pc_range.getD 0 0)
  let t5 := t4.set 1 (t4.getD 1 0 * (pc_range.getD 4 0 - pc_range.getD 1 0) + pc_range.getD 1 0)
  t5.set 4 (t5.getD 4 0 * (pc_range.getD 5 0 - pc_range.getD 2 0) + pc_range.getD 2 0)

/-- Hidden state of query `q`, batch `b` after layer `lvl`, read from the
(layer, query, batch, dims) engine layout. -/
def hiddenVec (dec : DecoderOuts) (lvl b q : Nat) : List ℚ :=
  ((dec.inter_states.getD lvl []).getD q []).getD b []

/-- Computes `tmp = self.reg_branches[lvl](hs[lvl])` at one (batch, query) slot. -/
def rawReg (P : ObjectDecoderP) (dec : DecoderOuts) (lvl b q : Nat) : List ℚ :=
  regApply (P.reg_branches.getD lvl default) (hiddenVec dec lvl b q)

/-- Computes `outputs_class = self.cls_branches[lvl](hs[lvl])` for one layer, in
(batch, query, class) layout. -/
def layerCls (P : ObjectDecoderP) (rsqrt : ℚ → ℚ) (dec : DecoderOuts) (lvl : Nat) :
    List (List (List ℚ)) :=
  ((dec.inter_states.map (transpose2 [])).getD lvl []).map
    (fun bRow => bRow.map (clsApply rsqrt (P.cls_branches.getD lvl default)))

/-- The refinement-loop body at one (query) slot: regression branch output,
then `refineQuery`. -/
def queryCoord (P : ObjectDecoderP) (sig : ℚ → ℚ) (lvl : Nat)
    (rq hq : List ℚ) : List ℚ :=
  refineQuery sig rq (regApply (P.reg_branches.getD lvl default) hq)

/-- The refinement-loop body over one batch slice. -/
def rowCoords (P : ObjectDecoderP) (sig : ℚ → ℚ) (lvl : Nat)
    (rb hb : List (List ℚ)) : List (List ℚ) :=
  List.zipWith (queryCoord P sig lvl) rb hb

/-- One layer of the refinement loop body for the box outputs, in
(batch, query, channel) layout. -/
def layerCoords (P : ObjectDecoderP) (sig invSig : ℚ → ℚ) (dec : DecoderOuts)
    (bs lvl : Nat) : List (List (List ℚ)) :=
  List.zipWith (rowCoords P sig lvl)
    (referenceAt P sig invSig dec bs lvl)
    ((dec.inter_states.map (transpose2 [])).getD lvl [])

/-- The output dictionary of `ObjectDecoder.forward`. -/
structure Outs where
  bev_embed : List (List (List ℚ))
  all_cls_scores : List (List (List (List ℚ)))
  all_bbox_preds : List (List (List (List ℚ)))
  enc_cls_scores : Option (List (List (List (List ℚ))))
  enc_bbox_preds : Option (List (List (List (List ℚ))))

/-- Models `ObjectDecoder.forward`: given the engine outputs, run the per-layer
refinement loop; if the layer assert fails at any layer the call raises
(`none`), otherwise the output dictionary is produced, with `bev_embed` the
`permute(1, 0, 2)` of the input feature map and the two `enc_*` entries `None`. -/
def objectDecoderForward (P : ObjectDecoderP) (sig invSig rsqrt : ℚ → ℚ) (bs : Nat)
    (bev_embed : List (List (List ℚ))) (dec : DecoderOuts) : Option Outs :=
  if (List.range dec.inter_states.length).all
      (fun lvl => assertRef3 (referenceAt P sig invSig dec bs lvl)) then
    some { bev_embed := transpose2 [] bev_embed,
           all_cls_scores := (List.range dec.inter_states.length).map
             (fun lvl => layerCls P rsqrt dec lvl),
           all_bbox_preds := (List.range dec.inter_states.length).map
             (fun lvl => layerCoords P sig invSig dec bs lvl),
           enc_cls_scores := none,
           enc_bbox_preds := none }
  else none

/-- Rectangular-shape predicates for nested lists. -/
abbrev dims2 {β : Type} (t : List (List β)) (a b : Nat) : Prop :=
  t.length = a ∧ ∀ r ∈ t, r.length = b

abbrev dims3 {β : Type} (t : List (List (List β))) (a b c : Nat) : Prop :=
  t.length = a ∧ ∀ m ∈ t, dims2 m b c

abbrev dims4 {β : Type} (t : List (List (List (List β)))) (a b c d : Nat) : Prop :=
  t.length = a ∧ ∀ m ∈ t, dims3 m b c d

/-- Boolean form of `dims4`, for concrete evaluation. -/
def dims4b (t : List (List (List (List ℚ)))) (a b c d : Nat) : Bool :=
  t.length == a && t.all (fun m => m.length == b &&
    m.all (fun r => r.length == c && r.all (fun v => v.length == d)))

/-! ### Shape lemmas -/

theorem getD_mem_of_lt {α : Type} (l : List α) (i : Nat) (h : i < l.length) (d : α) :
    l.getD i d ∈ l := by
  rw [List.getD_eq_getElem?_getD, List.getElem?_eq_getElem h]
  exact List.getElem_mem h

theorem getD_range_of_lt (n i : Nat) (h : i < n) (d : Nat) :
    (List.range n).getD i d = i := by
  rw [List.getD_eq_getElem?_getD, List.getElem?_range h]
  rfl

theorem exists_of_mem_zipWith {α β γ : Type} {f : α → β → γ} {l1 : List α}
    {l2 : List β} {x : γ} (hx : x ∈ List.zipWith f l1 l2) :
    ∃ i, ∃ h1 : i < l1.length, ∃ h2 : i < l2.length, x = f l1[i] l2[i] := by
  obtain ⟨i, hi, hix⟩ := List.mem_iff_getElem.mp hx
  rw [List.length_zipWith, lt_min_iff] at hi
  exact ⟨i, hi.1, hi.2, by rw [← hix, List.getElem_zipWith]⟩

theorem dims3_to_dims2 {β : Type} {t : List (List (List β))} {a b c : Nat}
    (h : dims3 t a b c) : dims2 t a b :=
  ⟨h.1, fun r hr => (h.2 r hr).1⟩

theorem length_linApply (p : LinearP) (x : List ℚ) :
    (linApply p x).length = min p.W.length p.b.length :=
  List.length_zipWith _ _ _

theorem length_clsApply (rsqrt : ℚ → ℚ) (p : ClsBranchP) (x : List ℚ) :
    (clsApply rsqrt p x).length = min p.lout.W.length p.lout.b.length :=
  length_linApply _ _

theorem length_regApply (p : RegBranchP) (x : List ℚ) :
    (regApply p x).length = min p.lout.W.length p.lout.b.length :=
  length_linApply _ _

theorem length_refineQuery (sig : ℚ → ℚ) (r t : List ℚ) :
    (refineQuery sig r t).length = t.length := by
  unfold refineQuery
  simp [List.length_set]

theorem transpose2_dims {β : Type} (dflt : β) (t : List (List β)) (n m : Nat)
    (hn : 0 < n) (ht : dims2 t n m) : dims2 (transpose2 dflt t) m n := by
  obtain ⟨hlen, hrow⟩ := ht
  cases t with
  | nil => simp at hlen; omega
  | cons r0 rest =>
    unfold transpose2
    refine ⟨?_, ?_⟩
    · rw [List.length_map, List.length_range]
      exact hrow r0 (by simp)
    · intro r hr
      obtain ⟨b, hb, rfl⟩ := List.mem_map.mp hr
      rw [List.length_map]
      exact hlen

theorem transpose2_entry {β : Type} (dflt : β) (dr : List β) (t : List (List β))
    (n m b q : Nat) (ht : dims2 t n m) (hb : b < m) (hq : q < n) :
    ((transpose2 dflt t).getD b dr).getD q dflt = (t.getD q []).getD b dflt := by
  obtain ⟨hlen, hrow⟩ := ht
  cases t with
  | nil => simp at hlen; omega
  | cons r0 rest =>
    unfold transpose2
    have hm : r0.length = m := hrow r0 (by simp)
    have hb' : b < (List.range r0.length).length := by
      rw [List.length_range, hm]
      exact hb
    rw [getD_map_of_lt _ _ _ hb' dr 0, getD_range_of_lt _ _ (by rw [hm]; exact hb) 0,
      getD_map_of_lt _ _ _ (by rw [hlen]; exact hq) dflt []]

theorem init_reference_dims (P : ObjectDecoderP) (sig : ℚ → ℚ) (bs : Nat)
    (hwf : P.wf) : dims3 (init_reference P sig bs) bs P.num_query 3 := by
  refine ⟨List.length_replicate _ _, ?_⟩
  intro m hm
  have hme := List.eq_of_mem_replicate hm
  subst hme
  refine ⟨?_, ?_⟩
  · rw [List.length_map]
    unfold query_pos_table
    rw [List.length_map]
    exact hwf.1
  · intro r hr
    obtain ⟨q, hq, rfl⟩ := List.mem_map.mp hr
    rw [List.length_map, length_linApply, hwf.2.2.1.1, hwf.2.2.1.2.2]
    exact min_self 3

theorem dims3_invSigRef (t : List (List (List ℚ))) (f : ℚ → ℚ)
    (a b c : Nat) (ht : dims3 t a b c) :
    dims3 (t.map (invSigRef f)) a b c := by
  refine ⟨by rw [List.length_map]; exact ht.1, ?_⟩
  intro m hm
  obtain ⟨bb, hbb, rfl⟩ := List.mem_map.mp hm
  unfold invSigRef
  refine ⟨by rw [List.length_map]; exact (ht.2 bb hbb).1, ?_⟩
  intro r hr
  obtain ⟨q, hq, rfl⟩ := List.mem_map.mp hr
  rw [List.length_map]
  exact (ht.2 bb hbb).2 q hq

theorem referenceAt_dims (P : ObjectDecoderP) (sig invSig : ℚ → ℚ)
    (dec : DecoderOuts) (bs lvl : Nat) (hwf : P.wf)
    (hR : dims4 dec.inter_references num_layers bs P.num_query 3)
    (hlvl : lvl < num_layers) :
    dims3 (referenceAt P sig invSig dec bs lvl) bs P.num_query 3 := by
  unfold referenceAt refUsedAt
  by_cases h0 : lvl = 0
  · rw [if_pos h0]
    exact dims3_invSigRef _ _ _ _ _ (init_reference_dims P sig bs hwf)
  · rw [if_neg h0]
    refine dims3_invSigRef _ _ _ _ _ (hR.2 _ (getD_mem_of_lt _ _ ?_ _))
    rw [hR.1]
    omega

theorem assertRef3_of_dims (t : List (List (List ℚ))) (a b : Nat)
    (ht : dims3 t a b 3) : assertRef3 t = true := by
  unfold assertRef3
  rw [List.all_eq_true]
  intro bb hbb
  rw [List.all_eq_true]
  intro q hq
  rw [beq_iff_eq]
  exact (ht.2 bb hbb).2 q hq

theorem forward_eq_some (P : ObjectDecoderP) (sig invSig rsqrt : ℚ → ℚ) (bs : Nat)
    (bev : List (List (List ℚ))) (dec : DecoderOuts) (hwf : P.wf)
    (hL : dec.inter_states.length = num_layers)
    (hR : dims4 dec.inter_references num_layers bs P.num_query 3) :
    objectDecoderForward P sig invSig rsqrt bs bev dec =
      some { bev_embed := transpose2 [] bev,
             all_cls_scores := (List.range dec.inter_states.length).map
               (fun lvl => layerCls P rsqrt dec lvl),
             all_bbox_preds := (List.range dec.inter_states.length).map
               (fun lvl => layerCoords P sig invSig dec bs lvl),
             enc_cls_scores := none,
             enc_bbox_preds := none } := by
  unfold objectDecoderForward
  rw [if_pos]
  rw [List.all_eq_true]
  intro lvl hlvl
  rw [List.mem_range, hL] at hlvl
  exact assertRef3_of_dims _ _ _ (referenceAt_dims P sig invSig dec bs lvl hwf hR hlvl)

theorem layerCls_dims (P : ObjectDecoderP) (rsqrt : ℚ → ℚ) (dec : DecoderOuts)
    (bs lvl : Nat) (hwf : P.wf)
    (hS : dims4 dec.inter_states num_layers P.num_query bs P.embed_dims)
    (hlvl : lvl < num_layers) (hnq : 0 < P.num_query) :
    dims3 (layerCls P rsqrt dec lvl) bs P.num_query P.num_classes := by
  unfold layerCls
  have hmem : dec.inter_states.getD lvl [] ∈ dec.inter_states :=
    getD_mem_of_lt _ _ (by rw [hS.1]; exact hlvl) _
  have hD3 := hS.2 _ hmem
  have hhsl : (dec.inter_states.map (transpose2 [])).getD lvl []
      = transpose2 [] (dec.inter_states.getD lvl []) :=
    getD_map_of_lt _ _ _ (by rw [hS.1]; exact hlvl) [] []
  rw [hhsl]
  have ht2 := transpose2_dims ([] : List ℚ) _ _ _ hnq (dims3_to_dims2 hD3)
  refine ⟨by rw [List.length_map]; exact ht2.1, ?_⟩
  intro m hm
  obtain ⟨bRow, hbRow, rfl⟩ := List.mem_map.mp hm
  refine ⟨by rw [List.length_map]; exact ht2.2 bRow hbRow, ?_⟩
  intro v hv
  obtain ⟨hvec, hh, rfl⟩ := List.mem_map.mp hv
  rw [length_clsApply]
  have hcw := hwf.2.2.2.2.1 _
    (getD_mem_of_lt P.cls_branches lvl (by rw [hwf.2.2.2.1]; exact hlvl) default)
  rw [hcw.2.2.2.2.1, hcw.2.2.2.2.2.2]
  exact min_self _

theorem layerCoords_dims (P : ObjectDecoderP) (sig invSig : ℚ → ℚ)
    (dec : DecoderOuts) (bs lvl : Nat) (hwf : P.wf)
    (hS : dims4 dec.inter_states num_layers P.num_query bs P.embed_dims)
    (hR : dims4 dec.inter_references num_layers bs P.num_query 3)
    (hlvl : lvl < num_layers) (hnq : 0 < P.num_query) :
    dims3 (layerCoords P sig invSig dec bs lvl) bs P.num_query code_size := by
  unfold layerCoords
  have href := referenceAt_dims P sig invSig dec bs lvl hwf hR hlvl
  have hhsl : (dec.inter_states.map (transpose2 [])).getD lvl []
      = transpose2 [] (dec.inter_states.getD lvl []) :=
    getD_map_of_lt _ _ _ (by rw [hS.1]; exact hlvl) [] []
  have hD3 := hS.2 _ (getD_mem_of_lt _ _ (by rw [hS.1]; exact hlvl) [])
  have ht2 := transpose2_dims ([] : List ℚ) _ _ _ hnq (dims3_to_dims2 hD3)
  rw [hhsl]
  refine ⟨?_, ?_⟩
  · rw [List.length_zipWith, href.1, ht2.1]
    exact min_self _
  · intro m hm
    obtain ⟨i, hi1, hi2, rfl⟩ := exists_of_mem_zipWith hm
    unfold rowCoords
    refine ⟨?_, ?_⟩
    · rw [List.length_zipWith, (href.2 _ (List.getElem_mem hi1)).1,
        ht2.2 _ (List.getElem_mem hi2)]
      exact min_self _
    · intro v hv
      obtain ⟨j, hj1, hj2, rfl⟩ := exists_of_mem_zipWith hv
      unfold queryCoord
      rw [length_refineQuery, length_regApply]
      have hrw := hwf.2.2.2.2.2.2 _
        (getD_mem_of_lt P.reg_branches lvl (by rw [hwf.2.2.2.2.2.1]; exact hlvl) default)
      rw [hrw.2.2.1, hrw.2.2.2.2]
      exact min_self _

/-- C1 (amended): for every valid input and engine output meeting the decoder
contract, the forward call succeeds and returns `all_cls_scores` of shape
(num_layers, batch, num_query, num_classes) and `all_bbox_preds` of shape
(num_layers, batch, num_query, code_size) — the last dimension is the
configured `code_size = 10`, not 9 as the docstring and spec state. -/
theorem C1_output_shapes (P : ObjectDecoderP) (sig invSig rsqrt : ℚ → ℚ) (bs : Nat)
    (bev : List (List (List ℚ))) (dec : DecoderOuts)
    (hwf : P.wf) (hnq : 0 < P.num_query)
    (hS : dims4 dec.inter_states num_layers P.num_query bs P.embed_dims)
    (hR : dims4 dec.inter_references num_layers bs P.num_query 3) :
    ∃ o, objectDecoderForward P sig invSig rsqrt bs bev dec = some o ∧
      dims4 o.all_cls_scores num_layers bs P.num_query P.num_classes ∧
      dims4 o.all_bbox_preds num_layers bs P.num_query code_size := by
  refine ⟨_, forward_eq_some P sig invSig rsqrt bs bev dec hwf hS.1 hR, ?_, ?_⟩
  · refine ⟨by rw [List.length_map, List.length_range, hS.1], ?_⟩
    intro m hm
    obtain ⟨lvl, hlvlm, rfl⟩ := List.mem_map.mp hm
    rw [List.mem_range, hS.1] at hlvlm
    exact layerCls_dims P rsqrt dec bs lvl hwf hS hlvlm hnq
  · refine ⟨by rw [List.length_map, List.length_range, hS.1], ?_⟩
    intro m hm
    obtain ⟨lvl, hlvlm, rfl⟩ := List.mem_map.mp hm
    rw [List.mem_range, hS.1] at hlvlm
    exact layerCoords_dims P sig invSig dec bs lvl hwf hS hR hlvlm hnq

/-- A concrete, valid configuration with embed_dims = 1, num_classes = 2,
num_query = 1, batch 1, all weights zero. -/
def czero : ℚ → ℚ := fun _ => 0

def cLN : LayerNormP := ⟨[0], [0]⟩

def cLin11 : LinearP := ⟨[[0]], [0]⟩

def cClsB : ClsBranchP := ⟨cLin11, cLN, cLin11, cLN, ⟨[[0],[0]], [0,0]⟩⟩

def cRegB : RegBranchP := ⟨cLin11, cLin11, ⟨List.replicate 10 [0], List.replicate 10 0⟩⟩

def cP : ObjectDecoderP :=
  ⟨1, 2, 1, [[0,0]], ⟨[[0],[0],[0]], [0,0,0]⟩, List.replicate 6 cClsB, List.replicate 6 cRegB⟩

def cDec : DecoderOuts := ⟨List.replicate 6 [[[0]]], List.replicate 6 [[[0,0,0]]]⟩

def cBev : List (List (List ℚ)) := [[[0]]]

/-- C1: the claim asserts `all_bbox_preds` has last dimension 9.  At a concrete
valid configuration the forward call succeeds, `all_cls_scores` has the claimed
shape (6, 1, 1, num_classes), but the last dimension of the box tensor is the
configured `code_size = 10` (the regression branch ends in
`Linear(embed_dims, self.code_size)` with `self.code_size = 10`), so the
9-channel part of the claim is false. -/
theorem C1_counterexample :
    (objectDecoderForward cP czero czero czero 1 cBev cDec).map
        (fun o => dims4b o.all_cls_scores 6 1 1 2) = some true ∧
    (objectDecoderForward cP czero czero czero 1 cBev cDec).map
        (fun o => dims4b o.all_bbox_preds 6 1 1 9) = some false ∧
    (objectDecoderForward cP czero czero czero 1 cBev cDec).map
        (fun o => dims4b o.all_bbox_preds 6 1 1 10) = some true :=
  ⟨by decide, by decide, by decide⟩

/-- C1 witness (for the amended statement): the concrete configuration above. -/
theorem C1_output_shapes_witness :
    ∃ o, objectDecoderForward cP czero czero czero 1 cBev cDec = some o ∧
      dims4 o.all_cls_scores num_layers 1 cP.num_query cP.num_classes ∧
      dims4 o.all_bbox_preds num_layers 1 cP.num_query code_size :=
  C1_output_shapes cP czero czero czero 1 cBev cDec
    (by decide) (by decide) (by decide) (by decide)

/-! ### Entry-level lemmas for the refinement loop -/

theorem refineQuery_spec (sig : ℚ → ℚ) (r t : List ℚ) (ht : 5 ≤ t.length) :
    (refineQuery sig r t).length = t.length ∧
    (refineQuery sig r t).getD 0 0
      = sig (t.getD 0 0 + r.getD 0 0) * (pc_range.getD 3 0 - pc_range.getD 0 0)
        + pc_range.getD 0 0 ∧
    (refineQuery sig r t).getD 1 0
      = sig (t.getD 1 0 + r.getD 1 0) * (pc_range.getD 4 0 - pc_range.getD 1 0)
        + pc_range.getD 1 0 ∧
    (refineQuery sig r t).getD 4 0
      = sig (t.getD 4 0 + r.getD 2 0) * (pc_range.getD 5 0 - pc_range.getD 2 0)
        + pc_range.getD 2 0 ∧
    ∀ j, j ≠ 0 → j ≠ 1 → j ≠ 4 → (refineQuery sig r t).getD j 0 = t.getD j 0 := by
  match t, ht with
  | [], h => simp at h
  | [_], h => simp at h
  | [_, _], h => simp at h
  | [_, _, _], h => simp at h
  | [_, _, _, _], h => simp at h
  | c0 :: c1 :: c2 :: c3 :: c4 :: ts, _ =>
    refine ⟨rfl, rfl, rfl, rfl, ?_⟩
    intro j h0 h1 h4
    match j, h0, h1, h4 with
    | 2, _, _, _ => rfl
    | 3, _, _, _ => rfl
    | n + 5, _, _, _ => rfl

theorem refUsedAt_dims (P : ObjectDecoderP) (sig : ℚ → ℚ) (dec : DecoderOuts)
    (bs lvl : Nat) (hwf : P.wf)
    (hR : dims4 dec.inter_references num_layers bs P.num_query 3)
    (hlvl : lvl < num_layers) :
    dims3 (refUsedAt P sig dec bs lvl) bs P.num_query 3 := by
  unfold refUsedAt
  by_cases h0 : lvl = 0
  · rw [if_pos h0]
    exact init_reference_dims P sig bs hwf
  · rw [if_neg h0]
    refine hR.2 _ (getD_mem_of_lt _ _ ?_ _)
    rw [hR.1]
    have hnl : num_layers = 6 := rfl
    omega

theorem referenceAt_entry (P : ObjectDecoderP) (sig invSig : ℚ → ℚ)
    (dec : DecoderOuts) (bs lvl b q : Nat)
    (hd3 : dims3 (refUsedAt P sig dec bs lvl) bs P.num_query 3)
    (hb : b < bs) (hq : q < P.num_query) :
    ((referenceAt P sig invSig dec bs lvl).getD b []).getD q []
      = (((refUsedAt P sig dec bs lvl).getD b []).getD q []).map invSig := by
  unfold referenceAt
  rw [getD_map_of_lt _ _ _ (by rw [hd3.1]; exact hb) [] []]
  unfold invSigRef
  rw [getD_map_of_lt _ _ _ (by
    rw [(hd3.2 _ (getD_mem_of_lt _ _ (by rw [hd3.1]; exact hb) [])).1]
    exact hq) [] []]

theorem refUsed_entry_length (P : ObjectDecoderP) (sig : ℚ → ℚ) (dec : DecoderOuts)
    (bs lvl b q : Nat) (hd3 : dims3 (refUsedAt P sig dec bs lvl) bs P.num_query 3)
    (hb : b < bs) (hq : q < P.num_query) :
    (((refUsedAt P sig dec bs lvl).getD b []).getD q []).length = 3 := by
  have hrow := hd3.2 _ (getD_mem_of_lt _ _ (by rw [hd3.1]; exact hb) [])
  exact hrow.2 _ (getD_mem_of_lt _ _ (by rw [hrow.1]; exact hq) [])

theorem rawReg_length (P : ObjectDecoderP) (dec : DecoderOuts) (lvl b q : Nat)
    (hwf : P.wf) (hlvl : lvl < num_layers) :
    (rawReg P dec lvl b q).length = code_size := by
  unfold rawReg
  rw [length_regApply]
  have hrw := hwf.2.2.2.2.2.2 _
    (getD_mem_of_lt P.reg_branches lvl (by rw [hwf.2.2.2.2.2.1]; exact hlvl) default)
  rw [hrw.2.2.1, hrw.2.2.2.2]
  exact min_self _

theorem bbox_entry (P : ObjectDecoderP) (sig invSig rsqrt : ℚ → ℚ) (bs : Nat)
    (bev : List (List (List ℚ))) (dec : DecoderOuts) (lvl b q : Nat) (o : Outs)
    (hwf : P.wf) (hnq : 0 < P.num_query)
    (hS : dims4 dec.inter_states num_layers P.num_query bs P.embed_dims)
    (hR : dims4 dec.inter_references num_layers bs P.num_query 3)
    (hlvl : lvl < num_layers) (hb : b < bs) (hq : q < P.num_query)
    (ho : objectDecoderForward P sig invSig rsqrt bs bev dec = some o) :
    ((o.all_bbox_preds.getD lvl []).getD b []).getD q []
      = refineQuery sig
          ((((refUsedAt P sig dec bs lvl).getD b []).getD q []).map invSig)
          (rawReg P dec lvl b q) := by
  rw [forward_eq_some P sig invSig rsqrt bs bev dec hwf hS.1 hR] at ho
  have ho' := Option.some.inj ho
  subst ho'
  rw [getD_map_of_lt _ _ _ (by rw [List.length_range, hS.1]; exact hlvl) [] 0,
    getD_range_of_lt _ _ (by rw [hS.1]; exact hlvl) 0]
  show ((layerCoords P sig invSig dec bs lvl).getD b []).getD q [] = _
  unfold layerCoords
  have href := referenceAt_dims P sig invSig dec bs lvl hwf hR hlvl
  have hd3 := refUsedAt_dims P sig dec bs lvl hwf hR hlvl
  have hhsl : (dec.inter_states.map (transpose2 [])).getD lvl []
      = transpose2 [] (dec.inter_states.getD lvl []) :=
    getD_map_of_lt _ _ _ (by rw [hS.1]; exact hlvl) [] []
  have hD3 := hS.2 _ (getD_mem_of_lt _ _ (by rw [hS.1]; exact hlvl) [])
  have ht2 := transpose2_dims ([] : List ℚ) _ _ _ hnq (dims3_to_dims2 hD3)
  rw [hhsl]
  rw [getD_zipWith_of_lt (rowCoords P sig lvl) _ _ b
    (by rw [href.1]; exact hb) (by rw [ht2.1]; exact hb) [] [] []]
  unfold rowCoords
  rw [getD_zipWith_of_lt (queryCoord P sig lvl) _ _ q
    (by
      rw [(href.2 _ (getD_mem_of_lt _ _ (by rw [href.1]; exact hb) [])).1]
      exact hq)
    (by
      rw [ht2.2 _ (getD_mem_of_lt _ _ (by rw [ht2.1]; exact hb) [])]
      exact hq) [] [] []]
  unfold queryCoord
  rw [referenceAt_entry P sig invSig dec bs lvl b q hd3 hb hq]
  rw [transpose2_entry ([] : List ℚ) [] _ P.num_query bs b q (dims3_to_dims2 hD3) hb hq]
  rfl

/-- C6: for any sigmoid with range [0, 1], the denormalized box channels satisfy
cx, cy ∈ [-51.2, 51.2] (channels 0, 1) and cz ∈ [-5, 3] (channel 4), and every
other channel of `all_bbox_preds` equals the raw regression-branch output. -/
theorem C6_box_denormalization_range (P : ObjectDecoderP) (sig invSig rsqrt : ℚ → ℚ)
    (bs : Nat) (bev : List (List (List ℚ))) (dec : DecoderOuts) (lvl b q : Nat)
    (o : Outs)
    (hsig : ∀ x, 0 ≤ sig x ∧ sig x ≤ 1)
    (hwf : P.wf) (hnq : 0 < P.num_query)
    (hS : dims4 dec.inter_states num_layers P.num_query bs P.embed_dims)
    (hR : dims4 dec.inter_references num_layers bs P.num_query 3)
    (hlvl : lvl < num_layers) (hb : b < bs) (hq : q < P.num_query)
    (ho : objectDecoderForward P sig invSig rsqrt bs bev dec = some o) :
    (-51.2 ≤ get4 o.all_bbox_preds lvl b q 0 ∧ get4 o.all_bbox_preds lvl b q 0 ≤ 51.2) ∧
    (-51.2 ≤ get4 o.all_bbox_preds lvl b q 1 ∧ get4 o.all_bbox_preds lvl b q 1 ≤ 51.2) ∧
    (-5 ≤ get4 o.all_bbox_preds lvl b q 4 ∧ get4 o.all_bbox_preds lvl b q 4 ≤ 3) ∧
    (∀ j, j < code_size → j ≠ 0 → j ≠ 1 → j ≠ 4 →
      get4 o.all_bbox_preds lvl b q j = (rawReg P dec lvl b q).getD j 0) := by
  have hent := bbox_entry P sig invSig rsqrt bs bev dec lvl b q o hwf hnq hS hR hlvl hb hq ho
  have hlen := rawReg_length P dec lvl b q hwf hlvl
  have hspec := refineQuery_spec sig
    ((((refUsedAt P sig dec bs lvl).getD b []).getD q []).map invSig)
    (rawReg P dec lvl b q) (by rw [hlen]; decide)
  have hg : ∀ c, get4 o.all_bbox_preds lvl b q c
      = (refineQuery sig
          ((((refUsedAt P sig dec bs lvl).getD b []).getD q []).map invSig)
          (rawReg P dec lvl b q)).getD c 0 := by
    intro c
    unfold get4
    rw [hent]
  refine ⟨?_, ?_, ?_, ?_⟩
  · rw [hg 0, hspec.2.1]
    rw [show pc_range.getD 0 0 = -51.2 from rfl, show pc_range.getD 3 0 = 51.2 from rfl]
    obtain ⟨hs0, hs1⟩ := hsig ((rawReg P dec lvl b q).getD 0 0 +
      ((((refUsedAt P sig dec bs lvl).getD b []).getD q []).map invSig).getD 0 0)
    constructor <;> nlinarith
  · rw [hg 1, hspec.2.2.1]
    rw [show pc_range.getD 1 0 = -51.2 from rfl, show pc_range.getD 4 0 = 51.2 from rfl]
    obtain ⟨hs0, hs1⟩ := hsig ((rawReg P dec lvl b q).getD 1 0 +
      ((((refUsedAt P sig dec bs lvl).getD b []).getD q []).map invSig).getD 1 0)
    constructor <;> nlinarith
  · rw [hg 4, hspec.2.2.2.1]
    rw [show pc_range.getD 2 0 = -5 by norm_num [pc_range],
      show pc_range.getD 5 0 = 3 by norm_num [pc_range]]
    obtain ⟨hs0, hs1⟩ := hsig ((rawReg P dec lvl b q).getD 4 0 +
      ((((refUsedAt P sig dec bs lvl).getD b []).getD q []).map invSig).getD 2 0)
    constructor <;> nlinarith
  · intro j hj hj0 hj1 hj4
    rw [hg j, hspec.2.2.2.2 j hj0 hj1 hj4]

/-- The output record produced by the forward call at the concrete
zero-weight configuration. -/
def cOuts : Outs :=
  { bev_embed := transpose2 [] cBev,
    all_cls_scores := (List.range cDec.inter_states.length).map
      (fun lvl => layerCls cP czero cDec lvl),
    all_bbox_preds := (List.range cDec.inter_states.length).map
      (fun lvl => layerCoords cP czero czero cDec 1 lvl),
    enc_cls_scores := none,
    enc_bbox_preds := none }

theorem cOuts_forward :
    objectDecoderForward cP czero czero czero 1 cBev cDec = some cOuts :=
  forward_eq_some cP czero czero czero 1 cBev cDec (by decide) (by decide) (by decide)

/-- C6 witness: the concrete zero-weight configuration at layer 0, batch 0,
query 0, with the constant-zero stand-in for sigmoid (range [0,1]). -/
theorem C6_box_denormalization_range_witness :
    (-51.2 ≤ get4 cOuts.all_bbox_preds 0 0 0 0 ∧ get4 cOuts.all_bbox_preds 0 0 0 0 ≤ 51.2) ∧
    (-51.2 ≤ get4 cOuts.all_bbox_preds 0 0 0 1 ∧ get4 cOuts.all_bbox_preds 0 0 0 1 ≤ 51.2) ∧
    (-5 ≤ get4 cOuts.all_bbox_preds 0 0 0 4 ∧ get4 cOuts.all_bbox_preds 0 0 0 4 ≤ 3) ∧
    (∀ j, j < code_size → j ≠ 0 → j ≠ 1 → j ≠ 4 →
      get4 cOuts.all_bbox_preds 0 0 0 j = (rawReg cP cDec 0 0 0).getD j 0) :=
  C6_box_denormalization_range cP czero czero czero 1 cBev cDec 0 0 0 cOuts
    (fun x => ⟨le_refl 0, zero_le_one⟩) (by decide) (by decide) (by decide)
    (by decide) (by decide) (by decide) (by decide) cOuts_forward

/-- C7: layer 0 uses the initial reference point (sigmoid of the linear
projection of the positional query halves); layer `lvl > 0` uses the refined
reference output by layer `lvl - 1` (`inter_references[lvl-1]`); and the
normalized x, y (channels 0, 1) and z (channel 4) of the box output of that layer are
exactly `sigmoid(inverse_sigmoid(reference) + regression offset)`, here shown
with the point-cloud-range denormalization applied around that value. -/
theorem C7_reference_refinement (P : ObjectDecoderP) (sig invSig rsqrt : ℚ → ℚ)
    (bs : Nat) (bev : List (List (List ℚ))) (dec : DecoderOuts) (lvl b q : Nat)
    (o : Outs)
    (hwf : P.wf) (hnq : 0 < P.num_query)
    (hS : dims4 dec.inter_states num_layers P.num_query bs P.embed_dims)
    (hR : dims4 dec.inter_references num_layers bs P.num_query 3)
    (hlvl : lvl < num_layers) (hb : b < bs) (hq : q < P.num_query)
    (ho : objectDecoderForward P sig invSig rsqrt bs bev dec = some o) :
    refUsedAt P sig dec bs 0 = init_reference P sig bs ∧
    (0 < lvl → refUsedAt P sig dec bs lvl = dec.inter_references.getD (lvl - 1) []) ∧
    get4 o.all_bbox_preds lvl b q 0
      = sig ((rawReg P dec lvl b q).getD 0 0
          + invSig ((((refUsedAt P sig dec bs lvl).getD b []).getD q []).getD 0 0))
        * (pc_range.getD 3 0 - pc_range.getD 0 0) + pc_range.getD 0 0 ∧
    get4 o.all_bbox_preds lvl b q 1
      = sig ((rawReg P dec lvl b q).getD 1 0
          + invSig ((((refUsedAt P sig dec bs lvl).getD b []).getD q []).getD 1 0))
        * (pc_range.getD 4 0 - pc_range.getD 1 0) + pc_range.getD 1 0 ∧
    get4 o.all_bbox_preds lvl b q 4
      = sig ((rawReg P dec lvl b q).getD 4 0
          + invSig ((((refUsedAt P sig dec bs lvl).getD b []).getD q []).getD 2 0))
        * (pc_range.getD 5 0 - pc_range.getD 2 0) + pc_range.getD 2 0 := by
  have hent := bbox_entry P sig invSig rsqrt bs bev dec lvl b q o hwf hnq hS hR hlvl hb hq ho
  have hlen := rawReg_length P dec lvl b q hwf hlvl
  have hd3 := refUsedAt_dims P sig dec bs lvl hwf hR hlvl
  have hru := refUsed_entry_length P sig dec bs lvl b q hd3 hb hq
  have hspec := refineQuery_spec sig
    ((((refUsedAt P sig dec bs lvl).getD b []).getD q []).map invSig)
    (rawReg P dec lvl b q) (by rw [hlen]; decide)
  have hg : ∀ c, get4 o.all_bbox_preds lvl b q c
      = (refineQuery sig
          ((((refUsedAt P sig dec bs lvl).getD b []).getD q []).map invSig)
          (rawReg P dec lvl b q)).getD c 0 := by
    intro c
    unfold get4
    rw [hent]
  have hm : ∀ i, i < 3 →
      (((((refUsedAt P sig dec bs lvl).getD b []).getD q []).map invSig)).getD i 0
        = invSig ((((refUsedAt P sig dec bs lvl).getD b []).getD q []).getD i 0) := by
    intro i hi
    exact getD_map_of_lt invSig _ i (by rw [hru]; exact hi) 0 0
  refine ⟨by unfold refUsedAt; rw [if_pos rfl], ?_, ?_, ?_, ?_⟩
  · intro hpos
    unfold refUsedAt
    rw [if_neg (by omega)]
  · rw [hg 0, hspec.2.1, hm 0 (by omega)]
  · rw [hg 1, hspec.2.2.1, hm 1 (by omega)]
  · rw [hg 4, hspec.2.2.2.1, hm 2 (by omega)]

/-- C7 witness: the concrete zero-weight configuration at layer 0, batch 0,
query 0. -/
theorem C7_reference_refinement_witness :
    refUsedAt cP czero cDec 1 0 = init_reference cP czero 1 ∧
    (0 < 0 → refUsedAt cP czero cDec 1 0 = cDec.inter_references.getD (0 - 1) []) ∧
    get4 cOuts.all_bbox_preds 0 0 0 0
      = czero ((rawReg cP cDec 0 0 0).getD 0 0
          + czero ((((refUsedAt cP czero cDec 1 0).getD 0 []).getD 0 []).getD 0 0))
        * (pc_range.getD 3 0 - pc_range.getD 0 0) + pc_range.getD 0 0 ∧
    get4 cOuts.all_bbox_preds 0 0 0 1
      = czero ((rawReg cP cDec 0 0 0).getD 1 0
          + czero ((((refUsedAt cP czero cDec 1 0).getD 0 []).getD 0 []).getD 1 0))
        * (pc_range.getD 4 0 - pc_range.getD 1 0) + pc_range.getD 1 0 ∧
    get4 cOuts.all_bbox_preds 0 0 0 4
      = czero ((rawReg cP cDec 0 0 0).getD 4 0
          + czero ((((refUsedAt cP czero cDec 1 0).getD 0 []).getD 0 []).getD 2 0))
        * (pc_range.getD 5 0 - pc_range.getD 2 0) + pc_range.getD 2 0 :=
  C7_reference_refinement cP czero czero czero 1 cBev cDec 0 0 0 cOuts
    (by decide) (by decide) (by decide) (by decide) (by decide) (by decide)
    (by decide) cOuts_forward

/-- Modelled from the spec: the `DetectionTransformerDecoder` engine built by
`build_transformer_layer_sequence` is code of this repository that is not under
src/ (it is referenced only through a config type string).  Per spec section 4.3
(steps 3-4) and the Reference Point data model, each stage refines the 3D
reference point by adding the positional (x, y) components of the regression offset
and the height component (offset channel 4) to the inverse-sigmoid reference
coordinates and re-applying the sigmoid. -/
def specRefineStep (sig invSig : ℚ → ℚ) (offset ref : List ℚ) : List ℚ :=
  [sig (invSig (ref.getD 0 0) + offset.getD 0 0),
   sig (invSig (ref.getD 1 0) + offset.getD 1 0),
   sig (invSig (ref.getD 2 0) + offset.getD 4 0)]

/-- Modelled from the spec: the per-layer refined reference points produced by
the engine — one entry per decoder layer, applying `specRefineStep` at every
(batch, query) slot using the regression branch of that layer on the hidden states of that
layer, feeding each refined point forward to the next stage. -/
def specInterRefs (sig invSig : ℚ → ℚ) (branches : List RegBranchP)
    (hsLayers : List (List (List (List ℚ)))) (ref : List (List (List ℚ))) :
    List (List (List (List ℚ))) :=
  match hsLayers with
  | [] => []
  | h :: rest =>
    let newRef := List.zipWith (fun rb hb => List.zipWith (fun rq hq =>
        specRefineStep sig invSig (regApply (branches.headD default) hq) rq) rb hb) ref h
    newRef :: specInterRefs sig invSig branches.tail rest newRef

theorem specInterRefs_rows3 (sig invSig : ℚ → ℚ) (branches : List RegBranchP)
    (hsLayers : List (List (List (List ℚ)))) (ref : List (List (List ℚ))) :
    ∀ m ∈ specInterRefs sig invSig branches hsLayers ref,
      ∀ bb ∈ m, ∀ q ∈ bb, q.length = 3 := by
  induction hsLayers generalizing branches ref with
  | nil =>
    intro m hm
    simp [specInterRefs] at hm
  | cons h rest ih =>
    intro m hm
    simp only [specInterRefs] at hm
    rcases List.mem_cons.mp hm with rfl | hm2
    · intro bb hbb q hq
      obtain ⟨i, hi1, hi2, rfl⟩ := exists_of_mem_zipWith hbb
      obtain ⟨j, hj1, hj2, rfl⟩ := exists_of_mem_zipWith hq
      rfl
    · exact ih branches.tail _ m hm2

theorem assertRef3_of_rows3 (t : List (List (List ℚ))) (invSig : ℚ → ℚ)
    (h : ∀ bb ∈ t, ∀ q ∈ bb, q.length = 3) :
    assertRef3 (t.map (invSigRef invSig)) = true := by
  unfold assertRef3 invSigRef
  rw [List.all_eq_true]
  intro bb hbb
  rw [List.all_eq_true]
  intro q hq
  obtain ⟨bb0, hbb0, rfl⟩ := List.mem_map.mp hbb
  obtain ⟨q0, hq0, rfl⟩ := List.mem_map.mp hq
  rw [beq_iff_eq, List.length_map]
  exact h bb0 hbb0 q0 hq0

/-- C9: with the reference refinement of the engine modelled from the spec (3D points
refined layer by layer), the `assert reference.shape[-1] == 3` check passes at
every layer of the refinement loop for every well-formed parameter set: the
layer-0 reference comes from the `Linear(embed_dims, 3)` projection, and every
later reference is a refined 3-component point, so the error branch is
unreachable and the forward call always succeeds. -/
theorem C9_assert_never_fires (P : ObjectDecoderP) (sig invSig rsqrt : ℚ → ℚ)
    (bs : Nat) (bev : List (List (List ℚ))) (S : List (List (List (List ℚ))))
    (hwf : P.wf) :
    (objectDecoderForward P sig invSig rsqrt bs bev
      ⟨S, specInterRefs sig invSig P.reg_branches (S.map (transpose2 []))
        (init_reference P sig bs)⟩).isSome = true := by
  unfold objectDecoderForward
  rw [if_pos]
  · rfl
  · rw [List.all_eq_true]
    intro lvl hlvl
    unfold referenceAt refUsedAt
    have hproj : (DecoderOuts.mk S (specInterRefs sig invSig P.reg_branches
          (S.map (transpose2 [])) (init_reference P sig bs))).inter_references
        = specInterRefs sig invSig P.reg_branches (S.map (transpose2 []))
          (init_reference P sig bs) := rfl
    rw [hproj]
    by_cases h0 : lvl = 0
    · rw [if_pos h0]
      exact assertRef3_of_rows3 _ invSig
        (fun bb hbb q hq => ((init_reference_dims P sig bs hwf).2 bb hbb).2 q hq)
    · rw [if_neg h0]
      by_cases hlt : lvl - 1 < (specInterRefs sig invSig P.reg_branches
          (S.map (transpose2 [])) (init_reference P sig bs)).length
      · exact assertRef3_of_rows3 _ invSig
          (fun bb hbb q hq =>
            specInterRefs_rows3 sig invSig P.reg_branches (S.map (transpose2 []))
              (init_reference P sig bs) _ (getD_mem_of_lt _ _ hlt _) bb hbb q hq)
      · rw [List.getD_eq_default _ _ (by omega)]
        rfl

/-- C9 witness: the concrete zero-weight configuration with the engine states of
`cDec` and the spec-modelled reference refinement. -/
theorem C9_assert_never_fires_witness :
    (objectDecoderForward cP czero czero czero 1 cBev
      ⟨cDec.inter_states, specInterRefs czero czero cP.reg_branches
        (cDec.inter_states.map (transpose2 [])) (init_reference cP czero 1)⟩).isSome
      = true :=
  C9_assert_never_fires cP czero czero czero 1 cBev cDec.inter_states (by decide)

end HoPModel
